import Mathlib

set_option linter.unusedVariables false

namespace QRTimer

/- ====================================================================
   Shallow embedding of src/main.py (QR / BAR Run-Timer).

   Scanner timestamps (values of `time.time()`) are modelled as exact
   rationals; App timestamps (`datetime.now()` values) are modelled as
   integer microseconds since the Unix epoch, read in local time.
   `Int` division and modulus in Lean are Euclidean; for the positive
   divisors used throughout they agree with Python's floor division
   and modulus.
   ==================================================================== -/

/- Constants of src/main.py lines 20-24. -/

def SCAN_COOLDOWN : ℚ := 10

def MAX_FRAME_SKIP : Int := 6

/- ID_RE (line 24): the payload must consist of 6 to 12 ASCII digits. -/
def ID_RE_fullmatch (s : String) : Bool :=
  decide (6 ≤ s.data.length) && decide (s.data.length ≤ 12) &&
    s.data.all (fun c => c.isDigit)

/- ------------------------- Scanner (lines 53-90) ------------------- -/

structure Scanner where
  last_scan_ts : String → Option ℚ
  frame_skip : Int

/- Constructor, lines 55-57: empty cooldown table, frame_skip = 2. -/
def Scanner.init : Scanner :=
  { last_scan_ts := fun _ => none, frame_skip := 2 }

/- Cooldown admission, lines 74-77: the payload is rejected when
   `now - self.last_scan_ts.get(data, 0) < SCAN_COOLDOWN`; otherwise
   `now` is recorded as the payload's last-accepted time.  A never-seen
   payload defaults to last-accepted time 0 (the dict `.get` default). -/
def admitPayload (m : String → Option ℚ) (data : String) (now : ℚ) :
    Bool × (String → Option ℚ) :=
  if now - (m data).getD 0 < SCAN_COOLDOWN then (false, m)
  else (true, fun d => if d = data then some now else m d)

/- The decode loop of `Scanner.process`, lines 68-86.  One decoded
   object is a pair of its utf-8 payload and the `time.time()` value
   observed while handling it (line 74).  The accumulator carries the
   cooldown table, the `found_any` flag and the payloads passed to
   `on_code_cb`, in call order.  Geometry (polygon / rect fallback and
   center, lines 80-85) is carried nowhere because no claim concerns
   it; events are in bijection with callback invocations. -/
def scanObjs : (String → Option ℚ) → Bool → List String → List (String × ℚ) →
    (String → Option ℚ) × Bool × List String
  | m, found, evs, [] => (m, found, evs)
  | m, found, evs, (data, now) :: rest =>
    if ID_RE_fullmatch data = false then scanObjs m found evs rest
    else
      match admitPayload m data now with
      | (false, m1) => scanObjs m1 found evs rest
      | (true, m1) => scanObjs m1 true (evs ++ [data]) rest

/- `Scanner.process`, lines 59-90.  When `frame_skip > 1` the frame is
   skipped and no decode happens; otherwise `frame_skip` is reset to 2
   (line 66), the decode loop runs, and if nothing was found the skip
   is raised to `min(frame_skip + 1, MAX_FRAME_SKIP)` (line 90). -/
def Scanner.process (s : Scanner) (objs : List (String × ℚ)) :
    Scanner × List String :=
  if 1 < s.frame_skip then
    ({ s with frame_skip := s.frame_skip - 1 }, [])
  else
    let fs0 : Int := 2
    let r := scanObjs s.last_scan_ts false [] objs
    ({ last_scan_ts := r.1,
       frame_skip := if r.2.1 = false then min (fs0 + 1) MAX_FRAME_SKIP else fs0 },
     r.2.2)

/- Iterated processing of a stream of frames; a frame is given by the
   list of decoded objects its decode attempt would return. -/
def processMany : Scanner → List (List (String × ℚ)) → Scanner × List String
  | s, [] => (s, [])
  | s, f :: rest =>
    ((processMany (Scanner.process s f).1 rest).1,
     (Scanner.process s f).2 ++ (processMany (Scanner.process s f).1 rest).2)

/- -------------------- Decimal rendering helpers -------------------- -/

/- Decimal rendering of a natural number, as Python's str / f-string
   formatting produces it; fuel-based so that it reduces by `rfl`. -/
def repCharsAux : Nat → Nat → List Char
  | 0, _ => []
  | fuel + 1, n =>
    if n < 10 then [Nat.digitChar n]
    else repCharsAux fuel (n / 10) ++ [Nat.digitChar (n % 10)]

def repChars (n : Nat) : List Char := repCharsAux (n + 1) n

def natRepr (n : Nat) : String := String.mk (repChars n)

/- Zero padding on the left to width `w`, as in `f"{n:02d}"`. -/
def padZero (w : Nat) (s : String) : String :=
  String.mk (List.replicate (w - s.data.length) '0') ++ s

def fmtPad (w : Nat) (n : Nat) : String := padZero w (natRepr n)

/- ----------------------- Timestamp rendering ----------------------- -/

/- Duration rendering of `export_csv`, lines 185-188: from the
   timedelta `end - start` (here `d`, in microseconds) Python takes
   `td.seconds` (whole seconds within the day, in `[0, 86400)`) and
   `td.microseconds` (in `[0, 10^6)`), then renders
   `f"{minutes:02d}:{seconds:02d}:{millis:03d}"`. -/
def durationStr (d : Int) : String :=
  let tdSeconds : Int := (d / 1000000) % 86400
  let tdMicros : Int := d % 1000000
  let minutes : Int := tdSeconds / 60
  let seconds : Int := tdSeconds % 60
  let millis : Int := tdMicros / 1000
  fmtPad 2 minutes.toNat ++ ":" ++ fmtPad 2 seconds.toNat ++ ":" ++
    fmtPad 3 millis.toNat

/- Gregorian civil date from days since the Unix epoch (the standard
   era-based algorithm); used to model `datetime.isoformat`. -/
def civilFromDays (z0 : Int) : Int × Int × Int :=
  let z := z0 + 719468
  let era := z / 146097
  let doe := z - era * 146097
  let yoe := (doe - doe / 1460 + doe / 36524 - doe / 146096) / 365
  let y := yoe + era * 400
  let doy := doe - (365 * yoe + yoe / 4 - yoe / 100)
  let mp := (5 * doy + 2) / 153
  let da := doy - (153 * mp + 2) / 5 + 1
  let mo := mp + (if mp < 10 then 3 else -9)
  (y + (if mo ≤ 2 then 1 else 0), mo, da)

/- `App.iso` (line 126) on a present datetime:
   `dt.isoformat(timespec="seconds")`, i.e. `YYYY-MM-DDTHH:MM:SS` of
   the civil fields; sub-second digits are dropped. -/
def isoOfMicros (t : Int) : String :=
  let secs := t / 1000000
  let days := secs / 86400
  let sod := secs % 86400
  match civilFromDays days with
  | (y, mo, da) =>
    fmtPad 4 y.toNat ++ "-" ++ fmtPad 2 mo.toNat ++ "-" ++ fmtPad 2 da.toNat ++
      "T" ++ fmtPad 2 (sod / 3600).toNat ++ ":" ++
      fmtPad 2 ((sod % 3600) / 60).toNat ++ ":" ++ fmtPad 2 (sod % 60).toNat

/- `App.iso` (line 126): empty string on a missing timestamp (datetime
   objects are always truthy in Python, so truthiness is presence). -/
def isoOpt : Option Int → String
  | none => ""
  | some t => isoOfMicros t

/- ------------------------- App (lines 93-195) ---------------------- -/

/- One runner record `{"start": ..., "end": ...}` (line 139). -/
structure RunRec where
  start : Option Int
  endTime : Option Int
deriving DecidableEq

/- App state (lines 96-98): `self.runs` is an insertion-ordered dict,
   modelled as an association list without duplicate keys. -/
structure App where
  runs : List (String × RunRec)
  race_started : Bool
  race_start_ts : Option Int
deriving DecidableEq

def App.init : App :=
  { runs := [], race_started := false, race_start_ts := none }

/- Dict primitives over the insertion-ordered association list. -/
def getRec : List (String × RunRec) → String → Option RunRec
  | [], _ => none
  | kv :: rest, k => if kv.1 = k then some kv.2 else getRec rest k

/- In-place update of the value stored at an existing key. -/
def setRec : List (String × RunRec) → String → RunRec → List (String × RunRec)
  | [], _, _ => []
  | kv :: rest, k, v => if kv.1 = k then (k, v) :: rest else kv :: setRec rest k v

def hasKey : List (String × RunRec) → String → Bool
  | [], _ => false
  | kv :: rest, k => if kv.1 = k then true else hasKey rest k

/- The synthesized lap key `f"{pid}_lap{lap}"` (lines 148-149). -/
def lapKey (pid : String) (n : Nat) : String := pid ++ "_lap" ++ natRepr n

/- The `while f"{pid}_lap{lap}" in self.runs: lap += 1` search (line
   148), fuelled: `runs.length + 1` candidate suffixes always contain
   a free one, so the fuel never runs out on the actual search. -/
def findLapAux (runs : List (String × RunRec)) (pid : String) :
    Nat → Nat → Nat
  | 0, n => n
  | fuel + 1, n =>
    if hasKey runs (lapKey pid n) then findLapAux runs pid fuel (n + 1) else n

def findLap (runs : List (String × RunRec)) (pid : String) : Nat :=
  findLapAux runs pid (runs.length + 1) 1

/- Body of `record_scan` after the `setdefault` (lines 140-149),
   with `rec0` the record stored at `pid`. -/
def recordScanCore (a : App) (pid : String) (now : Int) (rec0 : RunRec) : App :=
  if a.race_started = false then a
  else if rec0.start = none then
    { a with runs := setRec a.runs pid { rec0 with start := a.race_start_ts } }
  else if rec0.endTime = none then
    { a with runs := setRec a.runs pid { rec0 with endTime := some now } }
  else
    { a with
      runs := a.runs ++
        [(lapKey pid (findLap a.runs pid),
          { start := a.race_start_ts, endTime := some now })] }

/- `App.record_scan` (lines 138-149).  `now` is the `datetime.now()`
   of this call; `setdefault` appends a fresh null record when `pid`
   is unseen, preserving insertion order. -/
def record_scan (a : App) (pid : String) (now : Int) : App :=
  match getRec a.runs pid with
  | none =>
    recordScanCore { a with runs := a.runs ++ [(pid, { start := none, endTime := none })] }
      pid now { start := none, endTime := none }
  | some r => recordScanCore a pid now r

/- Reported outcome of `start_race`: the "No runners" warning box, a
   silent early return, or a successful start. -/
inductive StartMsg
  | started
  | noRunners
  | silentNoOp
deriving DecidableEq

/- `App.start_race` (lines 151-162).  On `race_started or not
   self.runs` it returns without touching state, warning exactly when
   the registry is empty; otherwise it stamps the single gun time and
   overwrites every record's start with it. -/
def start_race (a : App) (now : Int) : App × StartMsg :=
  if a.race_started = true ∨ a.runs = [] then
    (a, if a.runs = [] then StartMsg.noRunners else StartMsg.silentNoOp)
  else
    ({ runs := a.runs.map (fun kv => (kv.1, { kv.2 with start := some now })),
       race_started := true,
       race_start_ts := some now },
     StartMsg.started)

/- `App.export_csv` (lines 165-193), modelled at the level of the rows
   written: `none` when the runs dict is empty (the guard at line 166;
   the save-dialog cancellation path is UI-only), otherwise the header
   row followed by one row per record in insertion order. -/
def export_csv (a : App) : Option (List (List String)) :=
  if a.runs = [] then none
  else
    some (["id", "start", "end", "duration_mm:ss:ms"] ::
      a.runs.map (fun kv =>
        [kv.1, isoOpt kv.2.start, isoOpt kv.2.endTime,
          match kv.2.start, kv.2.endTime with
          | some s, some e => durationStr (e - s)
          | _, _ => ""]))

/- --------------------- Command-level traces ------------------------ -/

/- The two mutating commands reaching the App state: an accepted scan
   event (`on_code` → `record_scan`, line 215) and the Start Race
   button (`start_race`). -/
inductive Op
  | scan (pid : String) (now : Int)
  | startRace (now : Int)

def stepApp (a : App) : Op → App
  | Op.scan pid now => record_scan a pid now
  | Op.startRace now => (start_race a now).1

def runApp (a : App) (ops : List Op) : App := ops.foldl stepApp a

/- The command trace of the end-to-end scenario of the spec: A and B
   scanned before the gun, the gun at `T0`, A at `T0+5s`, B at
   `T0+7s`, A again at `T0+13s` (3s + COOLDOWN after the gun). -/
def c6ops (T0 : Int) : List Op :=
  [Op.scan "A" (T0 - 60000000), Op.scan "B" (T0 - 50000000),
   Op.startRace T0, Op.scan "A" (T0 + 5000000), Op.scan "B" (T0 + 7000000),
   Op.scan "A" (T0 + 13000000)]

/- Invariant tying together the race flags and the record starts; it
   holds in every state reachable from `App.init`. -/
def AppInv (a : App) : Prop :=
  (a.race_started = false → a.race_start_ts = none ∧ ∀ kv ∈ a.runs, kv.2.start = none) ∧
  (a.race_started = true → a.race_start_ts ≠ none ∧ a.runs ≠ []) ∧
  (∀ kv ∈ a.runs, kv.2.start = none ∨ kv.2.start = a.race_start_ts)

/- ========================= Scanner lemmas ========================== -/

theorem scanObjs_decompose (objs : List (String × ℚ)) :
    ∀ (m : String → Option ℚ) (f : Bool) (evs : List String),
      scanObjs m f evs objs =
        ((scanObjs m false [] objs).1,
         (f || (scanObjs m false [] objs).2.1,
          evs ++ (scanObjs m false [] objs).2.2)) := by
  induction objs with
  | nil => intro m f evs; simp [scanObjs]
  | cons obj rest ih =>
    intro m f evs
    obtain ⟨data, now⟩ := obj
    by_cases hid : ID_RE_fullmatch data = false
    · simp only [scanObjs, if_pos hid]
      rw [ih m f evs, ih m false []]
    · by_cases hc : now - (m data).getD 0 < SCAN_COOLDOWN
      · simp only [scanObjs, if_neg hid, admitPayload, if_pos hc]
        rw [ih m f evs, ih m false []]
      · simp only [scanObjs, if_neg hid, admitPayload, if_neg hc]
        rw [ih _ true (evs ++ [data]), ih _ true ([] ++ [data])]
        simp

theorem scanObjs_found_iff (objs : List (String × ℚ)) :
    ∀ m : String → Option ℚ,
      ((scanObjs m false [] objs).2.1 = true ↔ (scanObjs m false [] objs).2.2 ≠ []) := by
  induction objs with
  | nil => intro m; simp [scanObjs]
  | cons obj rest ih =>
    intro m
    obtain ⟨data, now⟩ := obj
    by_cases hid : ID_RE_fullmatch data = false
    · simp only [scanObjs, if_pos hid]; exact ih m
    · by_cases hc : now - (m data).getD 0 < SCAN_COOLDOWN
      · simp only [scanObjs, if_neg hid, admitPayload, if_pos hc]; exact ih m
      · simp only [scanObjs, if_neg hid, admitPayload, if_neg hc]
        rw [scanObjs_decompose]
        simp

theorem process_skip_eq (s : Scanner) (objs : List (String × ℚ)) :
    (Scanner.process s objs).1.frame_skip =
      if 1 < s.frame_skip then s.frame_skip - 1
      else if (scanObjs s.last_scan_ts false [] objs).2.1 = true then 2 else 3 := by
  by_cases h : 1 < s.frame_skip
  · simp [Scanner.process, h]
  · by_cases hf : (scanObjs s.last_scan_ts false [] objs).2.1 = true
    · simp [Scanner.process, h, hf]
    · have hf' : (scanObjs s.last_scan_ts false [] objs).2.1 = false :=
        Bool.not_eq_true _ ▸ (Bool.eq_false_iff.mpr (fun hx => hf hx))
      simp [Scanner.process, h, hf', MAX_FRAME_SKIP]

theorem process_evs_eq (s : Scanner) (objs : List (String × ℚ)) :
    (Scanner.process s objs).2 =
      if 1 < s.frame_skip then [] else (scanObjs s.last_scan_ts false [] objs).2.2 := by
  by_cases h : 1 < s.frame_skip
  · simp [Scanner.process, h]
  · simp [Scanner.process, h]

theorem processMany_skip_bound (frames : List (List (String × ℚ))) :
    ∀ s : Scanner, 1 ≤ s.frame_skip → s.frame_skip ≤ 3 →
      1 ≤ (processMany s frames).1.frame_skip ∧
        (processMany s frames).1.frame_skip ≤ 3 := by
  induction frames with
  | nil => intro s h1 h3; exact ⟨h1, h3⟩
  | cons f rest ih =>
    intro s h1 h3
    have hskip := process_skip_eq s f
    have hb : 1 ≤ (Scanner.process s f).1.frame_skip ∧
        (Scanner.process s f).1.frame_skip ≤ 3 := by
      rw [hskip]
      by_cases h : 1 < s.frame_skip
      · rw [if_pos h]; omega
      · rw [if_neg h]
        by_cases hf : (scanObjs s.last_scan_ts false [] f).2.1 = true
        · rw [if_pos hf]; omega
        · rw [if_neg hf]; omega
    simpa only [processMany] using ih (Scanner.process s f).1 hb.1 hb.2

theorem process_attempt_found (s : Scanner) (objs : List (String × ℚ))
    (h : ¬ 1 < s.frame_skip)
    (hf : (scanObjs s.last_scan_ts false [] objs).2.1 = true) :
    Scanner.process s objs =
      ({ last_scan_ts := (scanObjs s.last_scan_ts false [] objs).1,
         frame_skip := 2 },
       (scanObjs s.last_scan_ts false [] objs).2.2) := by
  simp [Scanner.process, h, hf]

theorem process_attempt_empty (s : Scanner) (objs : List (String × ℚ))
    (h : ¬ 1 < s.frame_skip)
    (hf : (scanObjs s.last_scan_ts false [] objs).2.1 = false) :
    Scanner.process s objs =
      ({ last_scan_ts := (scanObjs s.last_scan_ts false [] objs).1,
         frame_skip := 3 },
       (scanObjs s.last_scan_ts false [] objs).2.2) := by
  simp [Scanner.process, h, hf, MAX_FRAME_SKIP, min_def]

theorem admitPayload_reject (m : String → Option ℚ) (p : String) (now : ℚ)
    (h : now - (m p).getD 0 < SCAN_COOLDOWN) :
    admitPayload m p now = (false, m) := by
  simp only [admitPayload, if_pos h]

theorem admitPayload_accept (m : String → Option ℚ) (p : String) (now : ℚ)
    (h : ¬ now - (m p).getD 0 < SCAN_COOLDOWN) :
    admitPayload m p now = (true, fun d => if d = p then some now else m d) := by
  simp only [admitPayload, if_neg h]

theorem admitPayload_fst (m : String → Option ℚ) (p : String) (now : ℚ) :
    ((admitPayload m p now).1 = true ↔ SCAN_COOLDOWN ≤ now - (m p).getD 0) := by
  by_cases hc : now - (m p).getD 0 < SCAN_COOLDOWN
  · rw [admitPayload_reject m p now hc]
    exact iff_of_false (by simp) (not_le.mpr hc)
  · rw [admitPayload_accept m p now hc]
    exact iff_of_true rfl (not_lt.mp hc)

/- ============================ Claim C9 ============================= -/

/-- C9 (confirmed): starting from the initial scanner state, under
every sequence of frames and decode outcomes, the adaptive skip value
stays within `[1, MAX_FRAME_SKIP]`. -/
theorem skip_bound_invariant (frames : List (List (String × ℚ))) :
    1 ≤ (processMany Scanner.init frames).1.frame_skip ∧
      (processMany Scanner.init frames).1.frame_skip ≤ MAX_FRAME_SKIP := by
  have := processMany_skip_bound frames Scanner.init (by norm_num [Scanner.init])
    (by norm_num [Scanner.init])
  exact ⟨this.1, le_trans this.2 (by norm_num [MAX_FRAME_SKIP])⟩

/- ============================ Claim C3 ============================= -/

/-- C3 (counterexample): the claim that after a decode attempt finding
zero codes the skip value increases by exactly 1 relative to its value
at that attempt, capped at MAX_FRAME_SKIP, is false: an attempt
entered with frame_skip 1 and an empty decode result leaves
frame_skip = 3, not min (1 + 1) MAX_FRAME_SKIP = 2, because line 66
first resets frame_skip to 2. -/
theorem skip_step_claim_false :
    ¬ (∀ (s : Scanner) (objs : List (String × ℚ)), s.frame_skip ≤ 1 →
        (Scanner.process s objs).2 = [] →
        (Scanner.process s objs).1.frame_skip =
          min (s.frame_skip + 1) MAX_FRAME_SKIP) := by
  intro h
  have h1 := h { last_scan_ts := fun _ => none, frame_skip := 1 } []
    (by norm_num) rfl
  have h2 : (3 : Int) = min ((1 : Int) + 1) MAX_FRAME_SKIP := h1
  rw [show MAX_FRAME_SKIP = 6 from rfl] at h2
  omega

/-- C3 (corrected): on every decode attempt (frame_skip ≤ 1 on entry)
the skip is first reset to 2, so an attempt finding zero codes leaves
skip = min (2 + 1) MAX_FRAME_SKIP = 3 and an attempt finding a code
leaves skip = 2; consequently, starting from the initial state, skip
never exceeds 3 and in particular never reaches MAX_FRAME_SKIP. -/
theorem skip_step_corrected (s : Scanner) (objs : List (String × ℚ))
    (h : s.frame_skip ≤ 1) :
    ((Scanner.process s objs).1.frame_skip =
      if (Scanner.process s objs).2 = [] then 3 else 2) ∧
    (∀ frames, (processMany Scanner.init frames).1.frame_skip < MAX_FRAME_SKIP) := by
  have hnl : ¬ 1 < s.frame_skip := by omega
  constructor
  · have hevs := process_evs_eq s objs
    rw [if_neg hnl] at hevs
    have hskip := process_skip_eq s objs
    rw [if_neg hnl] at hskip
    have hiff := scanObjs_found_iff objs s.last_scan_ts
    rw [hskip, hevs]
    by_cases hf : (scanObjs s.last_scan_ts false [] objs).2.1 = true
    · rw [if_pos hf, if_neg (hiff.mp hf)]
    · have hnil : (scanObjs s.last_scan_ts false [] objs).2.2 = [] :=
        not_not.mp (fun hne => hf (hiff.mpr hne))
      rw [if_neg hf, if_pos hnil]
  · intro frames
    have hb := processMany_skip_bound frames Scanner.init (by decide) (by decide)
    have h6 : MAX_FRAME_SKIP = 6 := rfl
    omega

/-- Witness for skip_step_corrected: a concrete attempt state with an
empty decode result. -/
theorem skip_step_corrected_witness :
    (Scanner.process { last_scan_ts := fun _ => none, frame_skip := 1 } []).1.frame_skip =
      if (Scanner.process { last_scan_ts := fun _ => none, frame_skip := 1 } []).2 = []
      then 3 else 2 :=
  (skip_step_corrected { last_scan_ts := fun _ => none, frame_skip := 1 } []
    (by norm_num)).1

/- ============================ Claim C2 ============================= -/

/-- C2 (counterexample): the claim that the sampler feedback is true
whenever the decode attempt returned at least one code, regardless of
cooldown admission, is false: a decode attempt returning exactly one
valid-format code that is on cooldown yields found_any = false. -/
theorem sampler_feedback_claim_false :
    ¬ (∀ (m : String → Option ℚ) (objs : List (String × ℚ)), objs ≠ [] →
        (scanObjs m false [] objs).2.1 = true) := by
  intro h
  have h1 := h (fun _ => some 100) [("123456", 105)] (by simp)
  have e1 : scanObjs (fun _ => some (100 : ℚ)) false [] [("123456", 105)] =
      ((fun _ => some (100 : ℚ)), false, []) := by
    simp only [scanObjs]
    rw [if_neg (by decide),
      admitPayload_reject _ _ _ (by norm_num [SCAN_COOLDOWN, Option.getD])]
  rw [e1] at h1
  simp at h1

/-- C2 (corrected): found_any is true exactly when the decode attempt
emitted at least one accepted event, i.e. when some decoded payload
passed both the ID-format filter and the cooldown filter; an attempt
whose codes are all on cooldown counts as not-found and raises the
skip value to 3. -/
theorem sampler_feedback_corrected (m : String → Option ℚ)
    (objs : List (String × ℚ)) (s : Scanner) (h : s.frame_skip ≤ 1) :
    ((scanObjs m false [] objs).2.1 = true ↔
      (scanObjs m false [] objs).2.2 ≠ []) ∧
    ((Scanner.process s objs).2 = (scanObjs s.last_scan_ts false [] objs).2.2) ∧
    ((scanObjs s.last_scan_ts false [] objs).2.1 = false →
      (Scanner.process s objs).1.frame_skip = 3) := by
  have hnl : ¬ 1 < s.frame_skip := by omega
  refine ⟨scanObjs_found_iff objs m, ?_, ?_⟩
  · rw [process_evs_eq, if_neg hnl]
  · intro hf
    simp [process_skip_eq, hnl, hf]

/-- Witness for sampler_feedback_corrected: one valid-format payload on
cooldown; the attempt emits no event and found_any is false. -/
theorem sampler_feedback_corrected_witness :
    ((scanObjs (fun _ => some (100 : ℚ)) false [] [("123456", 105)]).2.1 = true ↔
      (scanObjs (fun _ => some (100 : ℚ)) false [] [("123456", 105)]).2.2 ≠ []) :=
  (sampler_feedback_corrected (fun _ => some (100 : ℚ)) [("123456", 105)]
    { last_scan_ts := fun _ => some 100, frame_skip := 1 } (by norm_num)).1

/- ============================ Claim C1 ============================= -/

/-- C1 (counterexample): the claim that a never-seen payload is treated
as last accepted at minus infinity, hence always admitted, is false:
the code uses `.get(data, 0)`, so with an empty cooldown table a
payload presented at time 5 (with SCAN_COOLDOWN = 10) is rejected. -/
theorem cooldown_admit_claim_false :
    ¬ (∀ (m : String → Option ℚ) (p : String) (now : ℚ),
        m p = none → (admitPayload m p now).1 = true) := by
  intro h
  have h1 := h (fun _ => none) "123456" 5 rfl
  have e1 : (admitPayload (fun _ => none : String → Option ℚ) "123456" (5 : ℚ)).1 = false := by
    rw [admitPayload_reject _ _ _ (by norm_num [SCAN_COOLDOWN, Option.getD])]
  rw [h1] at e1
  exact Bool.noConfusion e1

set_option maxHeartbeats 1000000 in
/-- C1 (corrected): `admit` returns true and records `now` iff
`now - last ≥ SCAN_COOLDOWN` where a never-seen payload's last time
defaults to 0 (not minus infinity); hence a never-seen payload is
admitted exactly when `now ≥ SCAN_COOLDOWN`, which every wall-clock
epoch time satisfies.  After an admission at `u1`, a retry at `u2` is
admitted iff `u2 - u1 ≥ SCAN_COOLDOWN`; and a single valid payload
decoded three times within 2 seconds (first decode at or after time
SCAN_COOLDOWN) yields exactly one accepted event. -/
theorem cooldown_admit_corrected (m m1 : String → Option ℚ) (p : String)
    (now t1 t2 t3 u1 u2 : ℚ) (hid : ID_RE_fullmatch p = true)
    (h1 : SCAN_COOLDOWN ≤ t1) (h12 : t1 ≤ t2) (h23 : t2 ≤ t3)
    (h3 : t3 ≤ t1 + 2) :
    ((admitPayload m p now).1 = true ↔ SCAN_COOLDOWN ≤ now - (m p).getD 0) ∧
    ((admitPayload m p now).1 = true → (admitPayload m p now).2 p = some now) ∧
    ((admitPayload m p now).1 = false → (admitPayload m p now).2 = m) ∧
    (admitPayload m p u1 = (true, m1) →
      ((admitPayload m1 p u2).1 = true ↔ SCAN_COOLDOWN ≤ u2 - u1)) ∧
    (processMany Scanner.init
      [[], [(p, t1)], [], [(p, t2)], [], [], [(p, t3)]]).2 = [p] := by
  have hC : SCAN_COOLDOWN = 10 := rfl
  have hid' : ¬ ID_RE_fullmatch p = false := by simp [hid]
  refine ⟨admitPayload_fst m p now, ?_, ?_, ?_, ?_⟩
  · intro ht
    by_cases hc : now - (m p).getD 0 < SCAN_COOLDOWN
    · rw [admitPayload_reject _ _ _ hc] at ht
      exact absurd ht (by simp)
    · rw [admitPayload_accept _ _ _ hc]
      simp
  · intro hfl
    by_cases hc : now - (m p).getD 0 < SCAN_COOLDOWN
    · rw [admitPayload_reject _ _ _ hc]
    · rw [admitPayload_accept _ _ _ hc] at hfl
      exact absurd hfl (by simp)
  · intro hadm
    by_cases hc : u1 - (m p).getD 0 < SCAN_COOLDOWN
    · rw [admitPayload_reject _ _ _ hc] at hadm
      exact absurd (congrArg Prod.fst hadm) (by simp)
    · rw [admitPayload_accept _ _ _ hc] at hadm
      have hm1 : m1 = fun d => if d = p then some u1 else m d :=
        (congrArg Prod.snd hadm).symm
      rw [admitPayload_fst, hm1]
      simp
  · -- the three-decodes scenario, stepping through seven frames
    have hc1 : ¬ ((t1 : ℚ) - ((fun _ => none : String → Option ℚ) p).getD 0 <
        SCAN_COOLDOWN) := by
      simp only [Option.getD_none]
      intro hx
      rw [sub_zero] at hx
      linarith
    have e1 : scanObjs (fun _ => none : String → Option ℚ) false [] [(p, t1)] =
        ((fun d => if d = p then some t1 else none), true, [p]) := by
      simp only [scanObjs]
      rw [if_neg hid']
      rw [admitPayload_accept (fun _ => none : String → Option ℚ) p t1 hc1]
      rfl
    have hmp : ((fun d => if d = p then some t1 else none) : String → Option ℚ) p =
        some t1 := by simp
    have hc2 : (t2 : ℚ) -
        (((fun d => if d = p then some t1 else none) : String → Option ℚ) p).getD 0 <
        SCAN_COOLDOWN := by
      rw [hmp]
      simp only [Option.getD_some]
      rw [hC]
      linarith
    have e2 : scanObjs ((fun d => if d = p then some t1 else none) :
        String → Option ℚ) false [] [(p, t2)] =
        ((fun d => if d = p then some t1 else none), false, []) := by
      simp only [scanObjs]
      rw [if_neg hid']
      rw [admitPayload_reject (fun d => if d = p then some t1 else none :
        String → Option ℚ) p t2 hc2]
    have hc3 : (t3 : ℚ) -
        (((fun d => if d = p then some t1 else none) : String → Option ℚ) p).getD 0 <
        SCAN_COOLDOWN := by
      rw [hmp]
      simp only [Option.getD_some]
      rw [hC]
      linarith
    have e3 : scanObjs ((fun d => if d = p then some t1 else none) :
        String → Option ℚ) false [] [(p, t3)] =
        ((fun d => if d = p then some t1 else none), false, []) := by
      simp only [scanObjs]
      rw [if_neg hid']
      rw [admitPayload_reject (fun d => if d = p then some t1 else none :
        String → Option ℚ) p t3 hc3]
    have i1 : Scanner.process Scanner.init [] =
        ({ last_scan_ts := fun _ => none, frame_skip := 1 }, []) := rfl
    have i2 : Scanner.process
        { last_scan_ts := (fun _ => none : String → Option ℚ), frame_skip := 1 }
        [(p, t1)] =
        ({ last_scan_ts := fun d => if d = p then some t1 else none,
           frame_skip := 2 }, [p]) := by
      rw [process_attempt_found _ _ (by norm_num) (by rw [e1])]
      simp [e1]
    have i3 : Scanner.process
        { last_scan_ts := (fun d => if d = p then some t1 else none :
            String → Option ℚ), frame_skip := 2 } [] =
        ({ last_scan_ts := fun d => if d = p then some t1 else none,
           frame_skip := 1 }, []) := by
      simp [Scanner.process]
    have i4 : Scanner.process
        { last_scan_ts := (fun d => if d = p then some t1 else none :
            String → Option ℚ), frame_skip := 1 } [(p, t2)] =
        ({ last_scan_ts := fun d => if d = p then some t1 else none,
           frame_skip := 3 }, []) := by
      rw [process_attempt_empty _ _ (by norm_num) (by rw [e2])]
      simp [e2]
    have i5 : Scanner.process
        { last_scan_ts := (fun d => if d = p then some t1 else none :
            String → Option ℚ), frame_skip := 3 } [] =
        ({ last_scan_ts := fun d => if d = p then some t1 else none,
           frame_skip := 2 }, []) := by
      simp [Scanner.process]
    have i6 : Scanner.process
        { last_scan_ts := (fun d => if d = p then some t1 else none :
            String → Option ℚ), frame_skip := 1 } [(p, t3)] =
        ({ last_scan_ts := fun d => if d = p then some t1 else none,
           frame_skip := 3 }, []) := by
      rw [process_attempt_empty _ _ (by norm_num) (by rw [e3])]
      simp [e3]
    simp only [processMany, i1, i2, i3, i4, i5, i6]
    simp

/-- Witness for cooldown_admit_corrected at concrete times 100, 101,
102 with the empty table. -/
theorem cooldown_admit_corrected_witness :
    (processMany Scanner.init
      [[], [("123456", (100 : ℚ))], [], [("123456", 101)], [], [],
       [("123456", 102)]]).2 = ["123456"] :=
  (cooldown_admit_corrected (fun _ => none) (fun _ => none) "123456" 0 100 101 102 0 0
    (by decide) (by norm_num [SCAN_COOLDOWN]) (by norm_num) (by norm_num)
    (by norm_num)).2.2.2.2

/- ==================== Association list lemmas ===================== -/

theorem getRec_mem : ∀ {l : List (String × RunRec)} {k : String} {r : RunRec},
    getRec l k = some r → (k, r) ∈ l := by
  intro l
  induction l with
  | nil => intro k r h; simp [getRec] at h
  | cons kv rest ih =>
    intro k r h
    obtain ⟨a, b⟩ := kv
    by_cases ha : a = k
    · subst ha
      simp only [getRec, if_pos rfl] at h
      injection h with h
      subst h
      exact List.mem_cons_self _ _
    · simp only [getRec, if_neg ha] at h
      exact List.mem_cons_of_mem _ (ih h)

theorem getRec_append_left : ∀ {l l2 : List (String × RunRec)} {k : String}
    {r : RunRec}, getRec l k = some r → getRec (l ++ l2) k = some r := by
  intro l
  induction l with
  | nil => intro l2 k r h; simp [getRec] at h
  | cons kv rest ih =>
    intro l2 k r h
    by_cases hk : kv.1 = k
    · simp only [getRec, if_pos hk] at h
      simp only [List.cons_append, getRec, if_pos hk]
      exact h
    · simp only [getRec, if_neg hk] at h
      simp only [List.cons_append, getRec, if_neg hk]
      exact ih h

theorem getRec_append_right : ∀ {l l2 : List (String × RunRec)} {k : String},
    getRec l k = none → getRec (l ++ l2) k = getRec l2 k := by
  intro l
  induction l with
  | nil => intro l2 k _; simp [getRec]
  | cons kv rest ih =>
    intro l2 k h
    by_cases hk : kv.1 = k
    · simp only [getRec, if_pos hk] at h
      exact Option.noConfusion h
    · simp only [getRec, if_neg hk] at h
      simp only [List.cons_append, getRec, if_neg hk]
      exact ih h

theorem getRec_setRec_self : ∀ {l : List (String × RunRec)} {k : String}
    {r v : RunRec}, getRec l k = some r → getRec (setRec l k v) k = some v := by
  intro l
  induction l with
  | nil => intro k r v h; simp [getRec] at h
  | cons kv rest ih =>
    intro k r v h
    by_cases hk : kv.1 = k
    · simp only [setRec, if_pos hk, getRec, if_pos rfl]
      simp
    · simp only [getRec, if_neg hk] at h
      simp only [setRec, if_neg hk, getRec, if_neg hk]
      exact ih h

theorem getRec_setRec_ne : ∀ {l : List (String × RunRec)} {k k' : String}
    {v : RunRec}, k' ≠ k → getRec (setRec l k' v) k = getRec l k := by
  intro l
  induction l with
  | nil => intro k k' v _; simp [setRec]
  | cons kv rest ih =>
    intro k k' v h
    by_cases hk : kv.1 = k'
    · have hkv : ¬ kv.1 = k := by rw [hk]; exact h
      simp only [setRec, if_pos hk, getRec, if_neg h, if_neg hkv]
    · simp only [setRec, if_neg hk, getRec]
      by_cases hk2 : kv.1 = k
      · simp only [if_pos hk2]
      · simp only [if_neg hk2]
        exact ih h

theorem mem_setRec : ∀ {l : List (String × RunRec)} {k : String} {v : RunRec}
    (kv : String × RunRec), kv ∈ setRec l k v → kv = (k, v) ∨ kv ∈ l := by
  intro l
  induction l with
  | nil => intro k v kv h; simp [setRec] at h
  | cons hd rest ih =>
    intro k v kv h
    by_cases hk : hd.1 = k
    · simp only [setRec, if_pos hk] at h
      rcases List.mem_cons.mp h with h1 | h1
      · left; exact h1
      · right; exact List.mem_cons_of_mem _ h1
    · simp only [setRec, if_neg hk] at h
      rcases List.mem_cons.mp h with h1 | h1
      · right; rw [h1]; exact List.mem_cons_self _ _
      · rcases ih kv h1 with h2 | h2
        · left; exact h2
        · right; exact List.mem_cons_of_mem _ h2

theorem length_setRec : ∀ (l : List (String × RunRec)) (k : String) (v : RunRec),
    (setRec l k v).length = l.length := by
  intro l
  induction l with
  | nil => intro k v; rfl
  | cons kv rest ih =>
    intro k v
    by_cases hk : kv.1 = k
    · simp [setRec, hk]
    · simp [setRec, hk, ih]

theorem hasKey_mem : ∀ {l : List (String × RunRec)} {k : String},
    hasKey l k = true → k ∈ l.map Prod.fst := by
  intro l
  induction l with
  | nil => intro k h; simp [hasKey] at h
  | cons kv rest ih =>
    intro k h
    by_cases hk : kv.1 = k
    · simp [hk]
    · simp only [hasKey, if_neg hk] at h
      simp only [List.map_cons, List.mem_cons]
      right; exact ih h

/- ======================= AppInv preservation ======================= -/

theorem appInv_init : AppInv App.init := by
  refine ⟨fun _ => ⟨rfl, by simp [App.init]⟩, fun h => ?_, by simp [App.init]⟩
  simp [App.init] at h

theorem appInv_recordScanCore (a : App) (pid : String) (now : Int)
    (rec0 : RunRec) (hinv : AppInv a) (hg : getRec a.runs pid = some rec0) :
    AppInv (recordScanCore a pid now rec0) := by
  obtain ⟨i1, i2, i3⟩ := hinv
  by_cases hst : a.race_started = false
  · simp only [recordScanCore, if_pos hst]
    exact ⟨i1, i2, i3⟩
  · have hst' : a.race_started = true := by
      revert hst; cases a.race_started <;> simp
    obtain ⟨hts, hne⟩ := i2 hst'
    have h30 := i3 (pid, rec0) (getRec_mem hg)
    by_cases hs0 : rec0.start = none
    · simp only [recordScanCore]
      rw [if_neg hst, if_pos hs0]
      refine ⟨fun hf => absurd hf hst, fun _ => ⟨hts, ?_⟩, ?_⟩
      · intro hnil
        have := congrArg List.length hnil
        rw [length_setRec] at this
        exact hne (List.length_eq_zero.mp this)
      · intro kv hkv
        rcases mem_setRec kv hkv with h | h
        · right; rw [h]
        · exact i3 kv h
    · by_cases he0 : rec0.endTime = none
      · simp only [recordScanCore]
        rw [if_neg hst, if_neg hs0, if_pos he0]
        refine ⟨fun hf => absurd hf hst, fun _ => ⟨hts, ?_⟩, ?_⟩
        · intro hnil
          have := congrArg List.length hnil
          rw [length_setRec] at this
          exact hne (List.length_eq_zero.mp this)
        · intro kv hkv
          rcases mem_setRec kv hkv with h | h
          · rw [h]; simpa using h30
          · exact i3 kv h
      · simp only [recordScanCore]
        rw [if_neg hst, if_neg hs0, if_neg he0]
        refine ⟨fun hf => absurd hf hst, fun _ => ⟨hts, by simp⟩, ?_⟩
        intro kv hkv
        rcases List.mem_append.mp hkv with h | h
        · exact i3 kv h
        · right
          simp only [List.mem_singleton] at h
          rw [h]

theorem appInv_record_scan (a : App) (pid : String) (now : Int)
    (hinv : AppInv a) : AppInv (record_scan a pid now) := by
  cases hg : getRec a.runs pid with
  | some r =>
    simp only [record_scan, hg]
    exact appInv_recordScanCore a pid now r hinv hg
  | none =>
    simp only [record_scan, hg]
    apply appInv_recordScanCore
    · obtain ⟨i1, i2, i3⟩ := hinv
      refine ⟨?_, ?_, ?_⟩
      · intro hf
        obtain ⟨hts, hall⟩ := i1 hf
        refine ⟨hts, ?_⟩
        intro kv hkv
        rcases List.mem_append.mp hkv with h | h
        · exact hall kv h
        · simp only [List.mem_singleton] at h
          rw [h]
      · intro ht
        obtain ⟨hts, _⟩ := i2 ht
        exact ⟨hts, by simp⟩
      · intro kv hkv
        rcases List.mem_append.mp hkv with h | h
        · exact i3 kv h
        · simp only [List.mem_singleton] at h
          rw [h]
          left; rfl
    · rw [getRec_append_right hg]
      simp [getRec]

theorem appInv_start_race (a : App) (now : Int) (hinv : AppInv a) :
    AppInv (start_race a now).1 := by
  by_cases hc : a.race_started = true ∨ a.runs = []
  · simp only [start_race, if_pos hc]
    exact hinv
  · have hne : a.runs ≠ [] := fun h => hc (Or.inr h)
    simp only [start_race, if_neg hc]
    refine ⟨fun hf => ?_, fun _ => ⟨by simp, by simp [hne]⟩, ?_⟩
    · simp at hf
    · intro kv hkv
      rw [List.mem_map] at hkv
      obtain ⟨kv0, _, rfl⟩ := hkv
      right; rfl

theorem appInv_step (a : App) (op : Op) (hinv : AppInv a) :
    AppInv (stepApp a op) := by
  cases op with
  | scan pid now => exact appInv_record_scan a pid now hinv
  | startRace now => exact appInv_start_race a now hinv

theorem appInv_runApp_aux : ∀ (ops : List Op) (a : App), AppInv a →
    AppInv (runApp a ops) := by
  intro ops
  induction ops with
  | nil => intro a h; exact h
  | cons op rest ih =>
    intro a h
    simp only [runApp, List.foldl_cons]
    exact ih (stepApp a op) (appInv_step a op h)

theorem appInv_runApp (ops : List Op) : AppInv (runApp App.init ops) :=
  appInv_runApp_aux ops App.init appInv_init

/- ============================ Claim C4 ============================= -/

/-- C4 (confirmed): (i) in every state reachable from the initial app,
every record's start is either unset or the race start time, never an
individual scan timestamp; (ii) a successful begin_race stamps every
then-registered record's start with the single gun time; (iii) an
accepted event (pid, t) on a started race whose record has a null
start sets start to the race start time, not t; (iv) likewise for a
record created by a post-gun scan; (v) once a record's start is set it
is never changed by any further command (set at most once). -/
theorem gun_time_start_confirmed (ops : List Op) (b : App) :
    (∀ kv ∈ (runApp App.init ops).runs,
      kv.2.start = none ∨ kv.2.start = (runApp App.init ops).race_start_ts) ∧
    (∀ now : Int, b.race_started = false → b.runs ≠ [] →
      ∀ kv ∈ (start_race b now).1.runs, kv.2.start = some now) ∧
    (∀ (pid : String) (t : Int) (r : RunRec), b.race_started = true →
      getRec b.runs pid = some r → r.start = none →
      getRec (record_scan b pid t).runs pid =
        some { r with start := b.race_start_ts }) ∧
    (∀ (pid : String) (t : Int), b.race_started = true →
      getRec b.runs pid = none →
      getRec (record_scan b pid t).runs pid =
        some { start := b.race_start_ts, endTime := none }) ∧
    (∀ (op : Op) (pid : String) (r : RunRec),
      getRec (runApp App.init ops).runs pid = some r → r.start.isSome = true →
      ∃ r', getRec (stepApp (runApp App.init ops) op).runs pid = some r' ∧
        r'.start = r.start) := by
  refine ⟨(appInv_runApp ops).2.2, ?_, ?_, ?_, ?_⟩
  · intro now hb hne kv hkv
    rw [start_race, if_neg (by simp [hb, hne])] at hkv
    simp only [List.mem_map] at hkv
    obtain ⟨kv0, _, rfl⟩ := hkv
    rfl
  · intro pid t r hb hg hs
    simp only [record_scan, hg, recordScanCore]
    rw [if_neg (by simp [hb]), if_pos hs]
    exact getRec_setRec_self hg
  · intro pid t hb hg
    simp only [record_scan, hg, recordScanCore]
    rw [if_neg (by simp [hb]), if_pos trivial]
    have hg2 : getRec (b.runs ++ [(pid, ({ start := none, endTime := none } : RunRec))])
        pid = some { start := none, endTime := none } := by
      rw [getRec_append_right hg]
      simp [getRec]
    exact getRec_setRec_self hg2
  · intro op pid r hg hsome
    cases op with
    | startRace now =>
      by_cases hc : (runApp App.init ops).race_started = true ∨
          (runApp App.init ops).runs = []
      · refine ⟨r, ?_, rfl⟩
        simp only [stepApp, start_race, if_pos hc]
        exact hg
      · exfalso
        have hb : (runApp App.init ops).race_started = false := by
          have h1 : ¬ (runApp App.init ops).race_started = true := fun h => hc (Or.inl h)
          revert h1; cases (runApp App.init ops).race_started <;> simp
        have hn := ((appInv_runApp ops).1 hb).2 (pid, r) (getRec_mem hg)
        simp only at hn
        rw [hn] at hsome
        exact Bool.noConfusion hsome
    | scan pid' now =>
      simp only [stepApp]
      by_cases hpp : pid' = pid
      · subst hpp
        simp only [record_scan, hg]
        by_cases hst : (runApp App.init ops).race_started = false
        · simp only [recordScanCore, if_pos hst]
          exact ⟨r, hg, rfl⟩
        · have hs0 : ¬ r.start = none := by
            intro h0; rw [h0] at hsome; exact Bool.noConfusion hsome
          simp only [recordScanCore]
          rw [if_neg hst, if_neg hs0]
          by_cases he0 : r.endTime = none
          · rw [if_pos he0]
            exact ⟨{ r with endTime := some now }, getRec_setRec_self hg, rfl⟩
          · rw [if_neg he0]
            exact ⟨r, getRec_append_left hg, rfl⟩
      · cases hg' : getRec (runApp App.init ops).runs pid' with
        | none =>
          simp only [record_scan, hg']
          have hga : getRec ((runApp App.init ops).runs ++
              [(pid', ({ start := none, endTime := none } : RunRec))]) pid = some r :=
            getRec_append_left hg
          by_cases hst : (runApp App.init ops).race_started = false
          · simp only [recordScanCore]
            rw [if_pos hst]
            exact ⟨r, hga, rfl⟩
          · simp only [recordScanCore]
            rw [if_neg hst, if_pos trivial]
            refine ⟨r, ?_, rfl⟩
            rw [getRec_setRec_ne hpp]
            exact hga
        | some r0 =>
          simp only [record_scan, hg']
          by_cases hst : (runApp App.init ops).race_started = false
          · simp only [recordScanCore, if_pos hst]
            exact ⟨r, hg, rfl⟩
          · simp only [recordScanCore]
            rw [if_neg hst]
            by_cases hs0 : r0.start = none
            · rw [if_pos hs0]
              refine ⟨r, ?_, rfl⟩
              rw [getRec_setRec_ne hpp]
              exact hg
            · rw [if_neg hs0]
              by_cases he0 : r0.endTime = none
              · rw [if_pos he0]
                refine ⟨r, ?_, rfl⟩
                rw [getRec_setRec_ne hpp]
                exact hg
              · rw [if_neg he0]
                exact ⟨r, getRec_append_left hg, rfl⟩

/-- Witness for gun_time_start_confirmed: a started app with a
registered record whose start is null; the accepted event at time 99
sets start to the gun time 42, not to 99. -/
theorem gun_time_start_confirmed_witness :
    getRec (record_scan
      { runs := [("123456", { start := none, endTime := none })],
        race_started := true, race_start_ts := some 42 } "123456" 99).runs
      "123456" = some { start := some 42, endTime := none } :=
  (gun_time_start_confirmed []
    { runs := [("123456", { start := none, endTime := none })],
      race_started := true, race_start_ts := some 42 }).2.2.1 "123456" 99
    { start := none, endTime := none } rfl rfl rfl

/- ============================ Claim C7 ============================= -/

/-- C7 (confirmed): begin_race on an empty registry reports
NoRunnersRegistered and changes nothing (and in any reachable state an
empty registry implies the race clock is unstarted with a null start
time); begin_race when the race has already started is a no-op that
returns the state unchanged. -/
theorem begin_race_failure_confirmed (ops : List Op) (b : App) (now : Int) :
    ((runApp App.init ops).runs = [] →
      (runApp App.init ops).race_started = false ∧
      (runApp App.init ops).race_start_ts = none) ∧
    (b.runs = [] → start_race b now = (b, StartMsg.noRunners)) ∧
    (b.race_started = true → (start_race b now).1 = b) := by
  refine ⟨?_, ?_, ?_⟩
  · intro hempty
    have hinv := appInv_runApp ops
    have hb : (runApp App.init ops).race_started = false := by
      by_cases h : (runApp App.init ops).race_started = true
      · exact absurd hempty (hinv.2.1 h).2
      · revert h; cases (runApp App.init ops).race_started <;> simp
    exact ⟨hb, (hinv.1 hb).1⟩
  · intro hempty
    simp [start_race, hempty]
  · intro hst
    simp [start_race, hst]

/-- Witness for begin_race_failure_confirmed: starting on the empty
initial registry reports NoRunnersRegistered and leaves the state
unchanged. -/
theorem begin_race_failure_confirmed_witness :
    start_race App.init 0 = (App.init, StartMsg.noRunners) :=
  (begin_race_failure_confirmed [] App.init 0).2.1 rfl

/- ================ Decimal rendering: injectivity =================== -/

theorem repCharsAux_stable : ∀ (f1 f2 n : Nat), n < f1 → n < f2 →
    repCharsAux f1 n = repCharsAux f2 n := by
  intro f1
  induction f1 with
  | zero => intro f2 n h1 _; omega
  | succ g ih =>
    intro f2 n h1 h2
    cases f2 with
    | zero => omega
    | succ g2 =>
      simp only [repCharsAux]
      by_cases h10 : n < 10
      · simp [h10]
      · rw [if_neg h10, if_neg h10]
        rw [ih g2 (n / 10) (by omega) (by omega)]

theorem repChars_lt (n : Nat) (h : n < 10) : repChars n = [Nat.digitChar n] := by
  simp [repChars, repCharsAux, h]

theorem repChars_ge (n : Nat) (h : 10 ≤ n) :
    repChars n = repChars (n / 10) ++ [Nat.digitChar (n % 10)] := by
  have step : repCharsAux (n + 1) n =
      repCharsAux n (n / 10) ++ [Nat.digitChar (n % 10)] := by
    simp only [repCharsAux]
    rw [if_neg (by omega : ¬ n < 10)]
  rw [show repChars n = repCharsAux (n + 1) n from rfl, step,
    repCharsAux_stable n (n / 10 + 1) (n / 10) (by omega) (by omega)]
  rfl

theorem repChars_ne_nil (n : Nat) : repChars n ≠ [] := by
  by_cases h : n < 10
  · rw [repChars_lt n h]; simp
  · rw [repChars_ge n (by omega)]; simp

theorem digitChar_inj (a b : Nat) (ha : a < 10) (hb : b < 10)
    (h : Nat.digitChar a = Nat.digitChar b) : a = b := by
  interval_cases a <;> interval_cases b <;> revert h <;> decide

theorem repChars_inj : ∀ a b : Nat, repChars a = repChars b → a = b := by
  intro a
  induction a using Nat.strong_induction_on with
  | _ a ih =>
    intro b h
    by_cases ha : a < 10 <;> by_cases hb : b < 10
    · rw [repChars_lt a ha, repChars_lt b hb] at h
      simp only [List.cons.injEq, and_true] at h
      exact digitChar_inj a b ha hb h
    · exfalso
      rw [repChars_lt a ha, repChars_ge b (by omega)] at h
      have hl := congrArg List.length h
      simp only [List.length_cons, List.length_append, List.length_nil,
        List.length_singleton] at hl
      have := List.length_pos.mpr (repChars_ne_nil (b / 10))
      omega
    · exfalso
      rw [repChars_ge a (by omega), repChars_lt b hb] at h
      have hl := congrArg List.length h
      simp only [List.length_cons, List.length_append, List.length_nil,
        List.length_singleton] at hl
      have := List.length_pos.mpr (repChars_ne_nil (a / 10))
      omega
    · rw [repChars_ge a (by omega), repChars_ge b (by omega)] at h
      obtain ⟨h1, h2⟩ := List.append_inj' h (by simp)
      simp only [List.cons.injEq, and_true] at h2
      have hm : a % 10 = b % 10 :=
        digitChar_inj _ _ (Nat.mod_lt _ (by omega)) (Nat.mod_lt _ (by omega)) h2
      have hd : a / 10 = b / 10 := ih (a / 10) (by omega) (b / 10) h1
      omega

theorem natRepr_inj (a b : Nat) (h : natRepr a = natRepr b) : a = b := by
  apply repChars_inj
  have := congrArg String.data h
  exact this

theorem str_data_append (s t : String) : (s ++ t).data = s.data ++ t.data := rfl

theorem lapKey_inj (pid : String) (a b : Nat) (h : lapKey pid a = lapKey pid b) :
    a = b := by
  apply natRepr_inj
  have h2 : (lapKey pid a).data = (lapKey pid b).data := congrArg String.data h
  simp only [lapKey, str_data_append] at h2
  have h4 := List.append_cancel_left h2
  exact String.ext h4

/- ================== The smallest-free-lap search =================== -/

theorem exists_free_lap (l : List (String × RunRec)) (pid : String) :
    ∃ k, 1 ≤ k ∧ k ≤ l.length + 1 ∧ hasKey l (lapKey pid k) = false := by
  by_contra hall
  push_neg at hall
  have hall' : ∀ k, 1 ≤ k → k ≤ l.length + 1 → hasKey l (lapKey pid k) = true := by
    intro k h1 h2
    have := hall k h1 h2
    revert this
    cases hasKey l (lapKey pid k) <;> simp
  have hsub : ∀ x ∈ (List.range (l.length + 1)).map (fun i => lapKey pid (i + 1)),
      x ∈ l.map Prod.fst := by
    intro x hx
    simp only [List.mem_map, List.mem_range] at hx
    obtain ⟨i, hi, rfl⟩ := hx
    exact hasKey_mem (hall' (i + 1) (by omega) (by omega))
  have hinj : Function.Injective (fun i : Nat => lapKey pid (i + 1)) := by
    intro i j hij
    have := lapKey_inj pid (i + 1) (j + 1) hij
    omega
  have hnd : ((List.range (l.length + 1)).map
      (fun i => lapKey pid (i + 1))).Nodup := (List.nodup_range _).map hinj
  have hle := (hnd.subperm hsub).length_le
  simp only [List.length_map, List.length_range] at hle
  omega

theorem findLapAux_spec (l : List (String × RunRec)) (pid : String) :
    ∀ (fuel n : Nat),
      (∃ k, n ≤ k ∧ k < n + fuel ∧ hasKey l (lapKey pid k) = false) →
      hasKey l (lapKey pid (findLapAux l pid fuel n)) = false ∧
      n ≤ findLapAux l pid fuel n ∧
      ∀ j, n ≤ j → j < findLapAux l pid fuel n →
        hasKey l (lapKey pid j) = true := by
  intro fuel
  induction fuel with
  | zero =>
    intro n hex
    obtain ⟨k, hk1, hk2, _⟩ := hex
    omega
  | succ f ih =>
    intro n hex
    simp only [findLapAux]
    by_cases hk : hasKey l (lapKey pid n) = true
    · rw [if_pos hk]
      have hex' : ∃ k, n + 1 ≤ k ∧ k < (n + 1) + f ∧
          hasKey l (lapKey pid k) = false := by
        obtain ⟨k, h1, h2, h3⟩ := hex
        refine ⟨k, ?_, by omega, h3⟩
        rcases Nat.eq_or_lt_of_le h1 with heq | hlt
        · exfalso
          rw [← heq] at h3
          rw [h3] at hk
          exact Bool.noConfusion hk
        · omega
      obtain ⟨c1, c2, c3⟩ := ih (n + 1) hex'
      refine ⟨c1, by omega, ?_⟩
      intro j hj1 hj2
      rcases Nat.eq_or_lt_of_le hj1 with heq | hlt
      · rw [← heq]; exact hk
      · exact c3 j (by omega) hj2
    · rw [if_neg hk]
      have hk' : hasKey l (lapKey pid n) = false := by
        revert hk; cases hasKey l (lapKey pid n) <;> simp
      exact ⟨hk', Nat.le_refl n, fun j hj1 hj2 => by omega⟩

theorem findLap_spec (l : List (String × RunRec)) (pid : String) :
    hasKey l (lapKey pid (findLap l pid)) = false ∧
    1 ≤ findLap l pid ∧
    ∀ j, 1 ≤ j → j < findLap l pid → hasKey l (lapKey pid j) = true := by
  obtain ⟨k, h1, h2, h3⟩ := exists_free_lap l pid
  exact findLapAux_spec l pid (l.length + 1) 1 ⟨k, h1, by omega, h3⟩

/- ============================ Claim C5 ============================= -/

/-- C5 (confirmed): an accepted event at time t for a runner whose
record has both start and end set appends a single new record keyed
`{pid}_lap{N}` with start = race start time and end = t, where N is
the smallest positive integer whose lap key is not already a key of
the runs dict (so the first such event yields lap1, the next lap2);
the primary record is left unchanged. -/
theorem lap_record_creation_confirmed (a : App) (pid : String) (t : Int)
    (r : RunRec) (hg : getRec a.runs pid = some r) (hs : r.start ≠ none)
    (he : r.endTime ≠ none) (hst : a.race_started = true) :
    record_scan a pid t =
      { a with runs := a.runs ++
          [(lapKey pid (findLap a.runs pid),
            { start := a.race_start_ts, endTime := some t })] } ∧
    hasKey a.runs (lapKey pid (findLap a.runs pid)) = false ∧
    1 ≤ findLap a.runs pid ∧
    (∀ j, 1 ≤ j → j < findLap a.runs pid →
      hasKey a.runs (lapKey pid j) = true) ∧
    getRec (record_scan a pid t).runs pid = some r := by
  obtain ⟨f1, f2, f3⟩ := findLap_spec a.runs pid
  have heq : record_scan a pid t =
      { a with runs := a.runs ++
          [(lapKey pid (findLap a.runs pid),
            { start := a.race_start_ts, endTime := some t })] } := by
    simp only [record_scan, hg, recordScanCore]
    rw [if_neg (by simp [hst]), if_neg hs, if_neg he]
  refine ⟨heq, f1, f2, f3, ?_⟩
  rw [heq]
  exact getRec_append_left hg

/-- Witness for lap_record_creation_confirmed: a finished runner record
scanned again creates the lap record `111111_lap1`. -/
theorem lap_record_creation_witness :
    record_scan
      { runs := [("111111", { start := some 0, endTime := some 60000000 })],
        race_started := true, race_start_ts := some 0 } "111111" 120000000 =
      { runs := [("111111", { start := some 0, endTime := some 60000000 }),
                 ("111111_lap1", { start := some 0, endTime := some 120000000 })],
        race_started := true, race_start_ts := some 0 } := by
  have h := (lap_record_creation_confirmed
    { runs := [("111111", { start := some 0, endTime := some 60000000 })],
      race_started := true, race_start_ts := some 0 } "111111" 120000000
    { start := some 0, endTime := some 60000000 } rfl (by simp) (by simp) rfl).1
  rw [h]
  rfl

/- ============================ Claim C6 ============================= -/

/-- C6 (counterexample): at T0 = 0 the scenario's export does not match
the claim.  The actual export gives A the end time T0+5s (the first
post-gun scan closes the record, since begin_race already stamped A's
start) with duration 00:05:000, gives B the end time T0+7s (not a
blank end), and adds a lap row A_lap1 for the scan at T0+13s.  The
claim predicted A: end = T0+13s with duration 00:13:000 and B: end
blank. -/
theorem scenario_export_claim_false :
    (export_csv (runApp App.init (c6ops 0)) =
      some [["id", "start", "end", "duration_mm:ss:ms"],
            ["A", "1970-01-01T00:00:00", "1970-01-01T00:00:05", "00:05:000"],
            ["B", "1970-01-01T00:00:00", "1970-01-01T00:00:07", "00:07:000"],
            ["A_lap1", "1970-01-01T00:00:00", "1970-01-01T00:00:13",
              "00:13:000"]]) ∧
    ("00:05:000" : String) ≠ "00:13:000" ∧
    ("1970-01-01T00:00:07" : String) ≠ "" := by
  refine ⟨by decide, by decide, by decide⟩

/-- C6 (corrected): in the scenario (A, B registered by pre-gun scans,
gun at T0, A accepted at T0+5s, B at T0+7s, A again at T0+13s =
T0+3s+COOLDOWN), the export shows A with start = T0, end = T0+5s and
duration 00:05:000 (the first post-gun scan is the finish, because
begin_race stamped A's start); B with start = T0, end = T0+7s and
duration 00:07:000 (not a blank end); and a lap record A_lap1 with
start = T0, end = T0+13s and duration 00:13:000. -/
theorem scenario_export_corrected (T0 : Int) :
    export_csv (runApp App.init (c6ops T0)) =
      some [["id", "start", "end", "duration_mm:ss:ms"],
            ["A", isoOfMicros T0, isoOfMicros (T0 + 5000000), "00:05:000"],
            ["B", isoOfMicros T0, isoOfMicros (T0 + 7000000), "00:07:000"],
            ["A_lap1", isoOfMicros T0, isoOfMicros (T0 + 13000000),
              "00:13:000"]] := by
  have base : export_csv (runApp App.init (c6ops T0)) =
      some [["id", "start", "end", "duration_mm:ss:ms"],
            ["A", isoOfMicros T0, isoOfMicros (T0 + 5000000),
              durationStr (T0 + 5000000 - T0)],
            ["B", isoOfMicros T0, isoOfMicros (T0 + 7000000),
              durationStr (T0 + 7000000 - T0)],
            ["A_lap1", isoOfMicros T0, isoOfMicros (T0 + 13000000),
              durationStr (T0 + 13000000 - T0)]] := rfl
  rw [base, show T0 + 5000000 - T0 = (5000000 : Int) from by ring,
      show T0 + 7000000 - T0 = (7000000 : Int) from by ring,
      show T0 + 13000000 - T0 = (13000000 : Int) from by ring]
  rfl

/- ============================ Claim C8 ============================= -/

/-- C8 (confirmed): the export consists of the header row followed by
one row per record in insertion order with columns id, start, end,
duration; start and end are rendered by the second-precision ISO
renderer (empty on null: isoOpt none = "", and the rendering depends
only on the whole-second part of the timestamp); the duration column
is empty when either timestamp is missing, and otherwise it is the
zero-padded minutes:seconds:milliseconds rendering with seconds < 60,
milliseconds < 1000, and every zero-padded field at least its target
width. -/
theorem export_format_confirmed (a : App) (h : a.runs ≠ []) :
    export_csv a =
      some (["id", "start", "end", "duration_mm:ss:ms"] ::
        a.runs.map (fun kv =>
          [kv.1, isoOpt kv.2.start, isoOpt kv.2.endTime,
            match kv.2.start, kv.2.endTime with
            | some s, some e => durationStr (e - s)
            | _, _ => ""])) ∧
    isoOpt none = "" ∧
    (∀ t : Int, isoOpt (some t) = isoOpt (some (1000000 * (t / 1000000)))) ∧
    (∀ d : Int, ∃ mnts secs mls : Nat,
      secs < 60 ∧ mls < 1000 ∧
      (mnts : Int) = ((d / 1000000) % 86400) / 60 ∧
      (secs : Int) = ((d / 1000000) % 86400) % 60 ∧
      (mls : Int) = (d % 1000000) / 1000 ∧
      durationStr d =
        fmtPad 2 mnts ++ ":" ++ fmtPad 2 secs ++ ":" ++ fmtPad 3 mls) ∧
    (∀ w n : Nat, w ≤ (fmtPad w n).data.length) := by
  refine ⟨?_, rfl, ?_, ?_, ?_⟩
  · simp only [export_csv, if_neg h]
  · intro t
    simp only [isoOpt, isoOfMicros]
    rw [Int.mul_ediv_cancel_left _ (by norm_num)]
  · intro d
    refine ⟨(((d / 1000000) % 86400) / 60).toNat,
      (((d / 1000000) % 86400) % 60).toNat,
      ((d % 1000000) / 1000).toNat, ?_, ?_, ?_, ?_, ?_, rfl⟩
    · omega
    · omega
    · omega
    · omega
    · omega
  · intro w n
    simp only [fmtPad, padZero, str_data_append, List.length_append,
      List.length_replicate]
    omega

/-- Witness for export_format_confirmed on a one-record app with no
timestamps: header row plus one row with empty start, end and
duration. -/
theorem export_format_confirmed_witness :
    export_csv { runs := [("123456", { start := none, endTime := none })],
                 race_started := false, race_start_ts := none } =
      some [["id", "start", "end", "duration_mm:ss:ms"],
            ["123456", "", "", ""]] := by
  rw [(export_format_confirmed
    { runs := [("123456", { start := none, endTime := none })],
      race_started := false, race_start_ts := none } (by simp)).1]
  rfl

/- ============================ Claim C10 ============================ -/

/-- C10 (confirmed): the exported duration is computed only from the
seconds-within-a-day and microseconds components of end - start, so
for a difference of 24 hours or more the rendered value equals that of
the difference reduced modulo 24 hours. -/
theorem duration_mod_day (d : Int) (h : 86400000000 ≤ d) :
    durationStr d = durationStr (d % 86400000000) := by
  have h1 : ((d % 86400000000) / 1000000) % 86400 = (d / 1000000) % 86400 := by
    omega
  have h2 : (d % 86400000000) % 1000000 = d % 1000000 := by omega
  simp only [durationStr]
  rw [h1, h2]

/-- Witness for duration_mod_day: 24 hours and 5 seconds renders as
00:05:000, the same as 5 seconds. -/
theorem duration_mod_day_witness :
    (86400000000 : Int) ≤ 86405000000 ∧
    durationStr 86405000000 = durationStr (86405000000 % 86400000000) ∧
    durationStr 86405000000 = "00:05:000" :=
  ⟨by norm_num, duration_mod_day 86405000000 (by norm_num), by decide⟩

end QRTimer
